import Mathlib

/-!
Shallow embedding of the CedarCare business-assistant agent (`agent.py`)
and proofs about it.

Strings of the Python source are modelled as `List Char` (Python `len`
counts code points, as `List.length` does here).  `str.strip()` is
modelled over the ASCII whitespace characters, `str.lower()` over the
ASCII letters; the claims under study only involve such characters.
External collaborators — the model provider, `json.loads`, the wall
clock, the filesystem — are passed in as explicit parameters or oracle
functions, following the spec's own component boundaries.
-/

namespace CedarCare

/-- Shorthand: the character list of a string literal. -/
def S (s : String) : List Char := s.data

/-- ASCII whitespace, the characters `str.strip()` and the regex class
`\s` agree on for the inputs in scope. -/
def pyWS (c : Char) : Bool :=
  c = ' ' || c = '\t' || c = '\n' || c = '\r' || c = '\x0b' || c = '\x0c'

/-- Drop the longest all-`p` suffix (helper for `str.strip()`). -/
def dropRightWhile (p : Char → Bool) (l : List Char) : List Char :=
  (l.reverse.dropWhile p).reverse

/-- Python `s.strip()`: remove leading and trailing whitespace. -/
def stripWS (l : List Char) : List Char :=
  dropRightWhile pyWS (l.dropWhile pyWS)

/-- One character of `s.replace("\r", " ").replace("\n", " ")`. -/
def collapseChar (c : Char) : Char :=
  if c = '\r' || c = '\n' then ' ' else c

/-- The ASCII capital-to-small table of `str.lower()`. -/
def lowerTable : List (Char × Char) :=
  [('A', 'a'), ('B', 'b'), ('C', 'c'), ('D', 'd'), ('E', 'e'), ('F', 'f'),
   ('G', 'g'), ('H', 'h'), ('I', 'i'), ('J', 'j'), ('K', 'k'), ('L', 'l'),
   ('M', 'm'), ('N', 'n'), ('O', 'o'), ('P', 'p'), ('Q', 'q'), ('R', 'r'),
   ('S', 's'), ('T', 't'), ('U', 'u'), ('V', 'v'), ('W', 'w'), ('X', 'x'),
   ('Y', 'y'), ('Z', 'z')]

/-- Python `s.lower()` restricted to ASCII letters (`c` is returned
unchanged when it is not an ASCII capital, as `str.lower` does there). -/
def pyLower (c : Char) : Char :=
  match lowerTable.lookup c with
  | some l => l
  | none => c

/-- `agent.py` line 27-29:
`s = (s or "").strip().replace("\r", " ").replace("\n", " ")`
`return (s[: max_len - 1] + "…") if len(s) > max_len else s` -/
def _clean (s : List Char) (maxLen : Nat) : List Char :=
  let t := (stripWS s).map collapseChar
  if maxLen < t.length then t.take (maxLen - 1) ++ ['…'] else t

/-- One character class `[^@\s]` of `EMAIL_RE`. -/
def emailChar (c : Char) : Bool := !(c = '@' : Bool) && !pyWS c

/-- Split a list at the first occurrence of `c`: `some (before, after)`
when `c` occurs, `none` otherwise. -/
def splitFirst (c : Char) : List Char → Option (List Char × List Char)
  | [] => none
  | x :: xs =>
    if x = c then some ([], xs)
    else
      match splitFirst c xs with
      | none => none
      | some (a, b) => some (x :: a, b)

/-- `EMAIL_RE = re.compile(r"^[^@\s]+@[^@\s]+\.[^@\s]+$")`, as a whole-string
matcher: the string decomposes as `a ++ "@" ++ b ++ "." ++ c` with `a`, `b`,
`c` nonempty and built from `[^@\s]`.  Since `a` may not contain `@`, the
`@` of any match is the string's first `@`, and since `b`/`c` may contain
dots, the dot may be any interior dot of the part after the `@`. -/
def emailMatch (s : List Char) : Bool :=
  match splitFirst '@' s with
  | none => false
  | some (a, rest) =>
    !a.isEmpty && a.all emailChar && rest.all emailChar &&
      ((rest.drop 1).dropLast.contains '.')

/-- A persisted lead record (one CSV row / one JSONL line). -/
structure Lead where
  timestamp : List Char
  email : List Char
  nm : List Char
  message : List Char
deriving DecidableEq

/-- A persisted feedback record (one JSONL line). -/
structure FeedbackEntry where
  timestamp : List Char
  question : List Char
deriving DecidableEq

/-- The append-only log stores of `agent.py`: `leads.csv` (data rows after
the header), `leads.jsonl`, `logs/feedback.jsonl`, and the fallback
`Path.cwd()/"logs"/"feedback.jsonl"`.  Appends are modelled as list
extension; the once-only CSV header write does not affect any claim and is
not tracked. -/
structure LogState where
  leadsCsv : List Lead
  leadsJsonl : List Lead
  feedback : List FeedbackEntry
  feedbackCwd : List FeedbackEntry
deriving DecidableEq

/-- The empty stores. -/
def st0 : LogState := ⟨[], [], [], []⟩

/-- The cleaned, lowercased email of `agent.py` line 48:
`email = _clean(email, 200).lower()`. -/
def cleanedEmail (email : List Char) : List Char :=
  (_clean email 200).map pyLower

/-- `agent.py` line 50: `message = _clean(message or "General inquiry", 800)`
(`or` takes the default exactly when the string is falsy, i.e. empty). -/
def leadMessage (message : List Char) : List Char :=
  _clean (if message.isEmpty then S "General inquiry" else message) 800

/-- `record_customer_interest(email, name, message)` (`agent.py` 43-77).
The wall-clock timestamp `ts` is passed in; the write lock serialises
writes and is invisible to this single-call model.  Both the CSV row and
the JSONL mirror are appended on success. -/
def record_customer_interest (ts email nm message : List Char)
    (st : LogState) : List Char × LogState :=
  let e := cleanedEmail email
  let n := _clean nm 200
  let m := leadMessage message
  if !emailMatch e then (S "Invalid email address.", st)
  else if n.isEmpty then (S "Please provide a name.", st)
  else
    (S "Lead saved.",
      { st with
        leadsCsv := st.leadsCsv ++ [⟨ts, e, n, m⟩],
        leadsJsonl := st.leadsJsonl ++ [⟨ts, e, n, m⟩] })

/-- A logical write destination of the feedback path. -/
inductive WDest where
  | feedbackPrimary
  | feedbackFallbackCwd
deriving DecidableEq

/-- Result of one `record_feedback` call: the returned string, the stores
afterwards, and the write attempts made (in order). -/
structure FBOut where
  result : List Char
  state : LogState
  attempts : List WDest
deriving DecidableEq

/-- Placeholder for the dynamic `Path.cwd() / "logs" / "feedback.jsonl"`
rendered into the fallback confirmation string. -/
def cwdLogsPath : List Char := S "logs/feedback.jsonl"

/-- `record_feedback(question)` (`agent.py` 79-105).  The filesystem is the
environment: `pe`/`fe` say whether the primary and the fallback
`_append_jsonl` raise, and carry the exception's rendering when they do.
A failed append leaves the store unchanged. -/
def record_feedback (ts question : List Char) (pe fe : Option (List Char))
    (st : LogState) : FBOut :=
  let q := _clean question 1000
  if q.isEmpty then ⟨S "Feedback requires a non-empty question.", st, []⟩
  else
    match pe with
    | none =>
      ⟨S "Feedback recorded.",
        { st with feedback := st.feedback ++ [⟨ts, q⟩] },
        [.feedbackPrimary]⟩
    | some e =>
      match fe with
      | none =>
        ⟨S "Feedback recorded (fallback path used: " ++ cwdLogsPath ++ S ")",
          { st with feedbackCwd := st.feedbackCwd ++ [⟨ts, q⟩] },
          [.feedbackPrimary, .feedbackFallbackCwd]⟩
      | some e2 =>
        ⟨S "Failed to record feedback: " ++ e ++ S " | fallback error: " ++ e2,
          st,
          [.feedbackPrimary, .feedbackFallbackCwd]⟩

/-- A Python value as it reaches `_dispatch_tool` (a string, a dict, or a
JSON-decodable non-mapping). -/
inductive PyVal where
  | str (s : List Char)
  | dict (d : List (List Char × PyVal))
  | arr (xs : List PyVal)
  | num (n : Int)
  | boolean (b : Bool)
  | null

/-- `agent.py` 203-209, the argument normalisation of `_dispatch_tool`:
a string is `json.loads`-parsed (empty or unparseable text degrades to
`{}`, a successfully parsed value is kept whatever it is); an original
non-string non-dict is replaced by `{}`; a dict passes through.
`parse` stands for `json.loads` (`none` = the parse raised). -/
def normalizeArgs (parse : List Char → Option PyVal) (args : PyVal) : PyVal :=
  match args with
  | .str s =>
    if s.isEmpty then .dict []
    else
      match parse s with
      | some v => v
      | none => .dict []
  | .dict d => .dict d
  | _ => .dict []

/-- The same step as the spec words it (§4.2): "text is parsed as a
structured mapping if possible, otherwise treated as empty; any
non-mapping value is treated as empty."  Stated for comparison with
`normalizeArgs`, which is read off the code. -/
def specNormalizeArgs (parse : List Char → Option PyVal) (args : PyVal) :
    PyVal :=
  match args with
  | .str s =>
    match parse s with
    | some (.dict d) => .dict d
    | _ => .dict []
  | .dict d => .dict d
  | _ => .dict []

/-- First value bound to key `k` in a Python dict literal. -/
def assocFind (k : List Char) : List (List Char × PyVal) → Option PyVal
  | [] => none
  | kv :: rest => if kv.1 = k then some kv.2 else assocFind k rest

def RCI_NAME : List Char := S "record_customer_interest"

def RF_NAME : List Char := S "record_feedback"

/-- `record_customer_interest(**args)` keyword binding: all three
parameters are required and no others are accepted; a violation raises
`TypeError` (returned here as `.error` with a representative message). -/
def kwargsRci (d : List (List Char × PyVal)) :
    Except (List Char) (PyVal × PyVal × PyVal) :=
  match assocFind (S "email") d, assocFind (S "name") d,
      assocFind (S "message") d with
  | some ev, some nv, some mv =>
    if d.all (fun kv =>
        kv.1 = S "email" || kv.1 = S "name" || kv.1 = S "message") then
      .ok (ev, nv, mv)
    else .error (S "unexpected keyword argument")
  | _, _, _ => .error (S "missing required argument")

/-- `record_feedback(**args)` keyword binding: exactly `question`. -/
def kwargsRf (d : List (List Char × PyVal)) : Except (List Char) PyVal :=
  match assocFind (S "question") d with
  | some qv =>
    if d.all (fun kv => kv.1 = S "question") then .ok qv
    else .error (S "unexpected keyword argument")
  | none => .error (S "missing required argument")

/-- What `_clean`'s `(s or "").strip()` does to an arbitrary Python value:
a string is used as is, a falsy value becomes `""`, and a truthy
non-string raises `AttributeError` at `.strip()` (returned as `.error`
with a representative message, caught by the dispatcher's generic
handler). -/
def pyCoerceStr : PyVal → Except (List Char) (List Char)
  | .str s => .ok s
  | .null => .ok []
  | .boolean b => if b then .error (S "AttributeError: strip") else .ok []
  | .num n => if n = 0 then .ok [] else .error (S "AttributeError: strip")
  | .arr xs => if xs.isEmpty then .ok [] else .error (S "AttributeError: strip")
  | .dict d => if d.isEmpty then .ok [] else .error (S "AttributeError: strip")

/-- Coerce the three `record_customer_interest` arguments in the order the
handler body evaluates them (email, then name, then message). -/
def coerceRci (ev nv mv : PyVal) :
    Except (List Char) (List Char × List Char × List Char) :=
  match pyCoerceStr ev with
  | .error m => .error m
  | .ok e =>
    match pyCoerceStr nv with
    | .error m => .error m
    | .ok n =>
      match pyCoerceStr mv with
      | .error m => .error m
      | .ok m => .ok (e, n, m)

/-- `_dispatch_tool(name, args)` (`agent.py` 202-220).  Total: every
Python exception surfaces as a result string.  `parse` stands for
`json.loads`; `pe`/`fe` are the feedback filesystem outcomes; `ts` the
wall clock. -/
def _dispatch_tool (parse : List Char → Option PyVal)
    (pe fe : Option (List Char)) (ts : List Char)
    (nm : List Char) (rawArgs : PyVal) (st : LogState) :
    List Char × LogState :=
  match normalizeArgs parse rawArgs with
  | .dict d =>
    if nm = RCI_NAME then
      match kwargsRci d with
      | .error m => (S "Tool '" ++ nm ++ S "' argument error: " ++ m, st)
      | .ok (ev, nv, mv) =>
        match coerceRci ev nv mv with
        | .error m => (S "Tool '" ++ nm ++ S "' failed: " ++ m, st)
        | .ok (e, n, m) => record_customer_interest ts e n m st
    else if nm = RF_NAME then
      match kwargsRf d with
      | .error m => (S "Tool '" ++ nm ++ S "' argument error: " ++ m, st)
      | .ok qv =>
        match pyCoerceStr qv with
        | .error m => (S "Tool '" ++ nm ++ S "' failed: " ++ m, st)
        | .ok q =>
          let out := record_feedback ts q pe fe st
          (out.result, out.state)
    else (S "Unknown tool: " ++ nm, st)
  | _ =>
    -- a normalized non-mapping reaches `handler(**args)` and raises
    -- `TypeError: argument after ** must be a mapping` there
    if nm = RCI_NAME || nm = RF_NAME then
      (S "Tool '" ++ nm ++ S "' argument error: " ++
        S "argument after ** must be a mapping", st)
    else (S "Unknown tool: " ++ nm, st)

/-- One role-tagged history element: `m.get("role")` (absent key gives
`none`) and `m.get("content", "")`. -/
structure RoleMsg where
  role : Option (List Char)
  content : List Char

/-- The two accepted history shapes (spec §9: a tagged union), plus
absence.  `agent.py` duck-types on the first element; well-shaped input
is one of these. -/
inductive History where
  | absent
  | pairs (l : List (Option (List Char) × Option (List Char)))
  | msgs (l : List RoleMsg)

/-- Python `str(u or "")` for an optional string. -/
def pyOrEmpty (o : Option (List Char)) : List Char :=
  match o with
  | none => []
  | some s => if s.isEmpty then [] else s

/-- The loop of `_tuplize`'s role-tagged branch (`agent.py` 236-243),
carrying `last_user`. -/
def tupGo : List RoleMsg → Option (List Char) → List (List Char × List Char)
  | [], _ => []
  | m :: rest, lastUser =>
    if m.role = some (S "user") then tupGo rest (some m.content)
    else if m.role = some (S "assistant") then
      (pyOrEmpty lastUser, m.content) :: tupGo rest none
    else tupGo rest lastUser

/-- `_tuplize(history)` (`agent.py` 230-244). -/
def _tuplize : History → List (List Char × List Char)
  | .absent => []
  | .pairs l =>
    if l.isEmpty then []
    else l.map (fun p => (pyOrEmpty p.1, pyOrEmpty p.2))
  | .msgs l => if l.isEmpty then [] else tupGo l none

/-- `_provider_ready()` (`agent.py` 223-225); `key` is
`os.getenv("OPENAI_API_KEY")` (`none` when unset). -/
def _provider_ready (key : Option (List Char)) : Bool :=
  let k := stripWS (key.getD [])
  ((S "sk-").isPrefixOf k || (S "sk-proj-").isPrefixOf k) &&
    decide (40 < k.length)

/-- `_SETUP_MSG` (`agent.py` 227). -/
def SETUP_MSG : List Char :=
  S "(Setup needed) No API key visible to this Python process. Set OPENAI_API_KEY and re-run."

/-- One tool-call request from the provider (`tc.id`,
`tc.function.name`, `tc.function.arguments`). -/
structure ToolCall where
  id : List Char
  nm : List Char
  arguments : List Char

/-- A first-round provider message: optional text content and the
(possibly empty) list of requested tool calls. -/
structure ChatMsg where
  content : Option (List Char)
  tool_calls : List ToolCall

/-- One entry of the `messages` list `run_agent` builds. -/
inductive PyMsg where
  | system (content : List Char)
  | user (content : List Char)
  | assistant (content : List Char)
  | assistantToolCalls (tcs : List ToolCall)
  | tool (tool_call_id : List Char) (nm : List Char) (content : List Char)

/-- A provider round-trip: the message list in, either a message or a
raised exception (rendered as text) out. -/
def Oracle : Type := List PyMsg → Except (List Char) ChatMsg

/-- `agent.py` 255-261: system prompt, history pairs (skipping empty
sides), then the new user message. -/
def buildBase (sys : List Char) (hist : History) (txt : List Char) :
    List PyMsg :=
  .system sys ::
    ((_tuplize hist).map (fun p =>
        (if p.1.isEmpty then [] else [PyMsg.user p.1]) ++
        (if p.2.isEmpty then [] else [PyMsg.assistant p.2]))).flatten ++
    [.user txt]

/-- `agent.py` 280-283: `json.loads(tc.function.arguments or "{}")`,
degrading to `{}` on a parse failure. -/
def parseCallArgs (parse : List Char → Option PyVal) (tc : ToolCall) :
    PyVal :=
  if tc.arguments.isEmpty then .dict []
  else
    match parse tc.arguments with
    | some v => v
    | none => .dict []

/-- The tool-execution loop of `run_agent` (`agent.py` 279-290): for each
requested call in order, parse its arguments, dispatch, and append a
`role:"tool"` message with the call's id, tool name and result string;
the stores thread through the calls. -/
def dispatchRound (parse : List Char → Option PyVal)
    (pe fe : Option (List Char)) (ts : List Char) :
    List ToolCall → LogState → List PyMsg × LogState
  | [], st => ([], st)
  | tc :: rest, st =>
    let r := _dispatch_tool parse pe fe ts tc.nm (parseCallArgs parse tc) st
    let tail := dispatchRound parse pe fe ts rest r.2
    (.tool tc.id tc.nm r.1 :: tail.1, tail.2)

/-- `content or "(no response)"`. -/
def contentOr (o : Option (List Char)) : List Char :=
  match o with
  | none => S "(no response)"
  | some c => if c.isEmpty then S "(no response)" else c

/-- `f"(Agent error) {type(e).__name__}: {e}"`; `e` carries the rendered
`TypeName: message`. -/
def agentError (e : List Char) : List Char := S "(Agent error) " ++ e

/-- The second round-trip and return (`agent.py` 292-297), still under the
surrounding `try`. -/
def finishSecond (o2 : Oracle) (msgs : List PyMsg) (st : LogState) :
    List Char × LogState :=
  match o2 msgs with
  | .ok m => (contentOr m.content, st)
  | .error e => (agentError e, st)

/-- `run_agent(user_text, history)` (`agent.py` 247-302).  `o1` is the
first provider call (with tool specs), `o2` the second (without); both
stand for the blocking network operation and may raise.  The returned
pair is the reply text and the stores afterwards. -/
def run_agent (key : Option (List Char)) (parse : List Char → Option PyVal)
    (pe fe : Option (List Char)) (ts : List Char) (sys : List Char)
    (hist : History) (txt : List Char) (st : LogState) (o1 o2 : Oracle) :
    List Char × LogState :=
  if _provider_ready key then
    match o1 (buildBase sys hist txt) with
    | .error e => (agentError e, st)
    | .ok msg =>
      if msg.tool_calls.isEmpty then (contentOr msg.content, st)
      else
        let pr := dispatchRound parse pe fe ts msg.tool_calls st
        finishSecond o2
          (buildBase sys hist txt ++ [.assistantToolCalls msg.tool_calls] ++
            pr.1)
          pr.2
  else (SETUP_MSG, st)

/-- A concrete stand-in for `json.loads` agreeing with it on the text
`"[1]"`: that text decodes to a JSON array — a non-mapping. -/
def cexParse : List Char → Option PyVal :=
  fun s => if s = S "[1]" then some (.arr [.num 1]) else none

/-- A concrete well-formed credential (prefix `sk-proj-`, length 48). -/
def wKey : Option (List Char) :=
  some (S "sk-proj-0123456789012345678901234567890123456789")

/-- A concrete tool-call request (empty argument text). -/
def wCall : ToolCall := ⟨S "call_1", S "record_feedback", S ""⟩

/-- A first-round oracle that always requests `wCall`. -/
def wO1 : Oracle := fun _ => .ok ⟨none, [wCall]⟩

/-- A second-round oracle that always answers with text. -/
def wO2 : Oracle := fun _ => .ok ⟨some (S "Done."), []⟩

/-- The malformedness the spec enumerates for an email argument: missing
`@`, missing a dot in the domain part (what follows the first `@`), or
embedded whitespace (whitespace that is neither leading nor trailing,
i.e. whitespace surviving `strip`). -/
def malformedEmail (e : List Char) : Bool :=
  !e.contains '@' ||
    (match splitFirst '@' e with
     | some p => !p.2.contains '.'
     | none => false) ||
    (stripWS e).any pyWS

/-! ### Character-level facts -/

theorem mem_of_lookup_eq_some {β : Type} {a : Char} {b : β} :
    ∀ {l : List (Char × β)}, l.lookup a = some b → (a, b) ∈ l
  | [], h => by simp [List.lookup] at h
  | p :: rest, h => by
    rw [List.lookup] at h
    cases hb : a == p.1 with
    | false =>
      rw [hb] at h
      exact List.mem_cons_of_mem _ (mem_of_lookup_eq_some h)
    | true =>
      rw [hb] at h
      obtain rfl : p.2 = b := Option.some_injective _ h
      obtain rfl : a = p.1 := beq_iff_eq.mp hb
      exact List.mem_cons_self _ _

theorem pyLower_cases (c : Char) :
    pyLower c = c ∨
      (pyWS c = false ∧ pyLower c ≠ '@' ∧ pyLower c ≠ '.' ∧
        pyWS (pyLower c) = false) := by
  unfold pyLower
  rcases hl : lowerTable.lookup c with _ | l
  · exact Or.inl rfl
  · refine Or.inr ?_
    have hmem := mem_of_lookup_eq_some hl
    have hall : ∀ p ∈ lowerTable,
        pyWS p.1 = false ∧ p.2 ≠ '@' ∧ p.2 ≠ '.' ∧ pyWS p.2 = false := by
      decide
    exact hall (c, l) hmem

theorem pyLower_eq_at {c : Char} (h : pyLower c = '@') : c = '@' := by
  rcases pyLower_cases c with h1 | ⟨_, h1, _, _⟩
  · exact h1 ▸ h
  · exact absurd h h1

theorem pyLower_eq_dot {c : Char} (h : pyLower c = '.') : c = '.' := by
  rcases pyLower_cases c with h1 | ⟨_, h1, h2, _⟩
  · exact h1 ▸ h
  · exact absurd h h2

theorem pyLower_of_ws {c : Char} (h : pyWS c = true) : pyLower c = c := by
  rcases pyLower_cases c with h1 | ⟨h1, _, _, _⟩
  · exact h1
  · rw [h] at h1; exact absurd h1 (by decide)

theorem collapseChar_of_ws {c : Char} (h : pyWS c = true) :
    pyWS (collapseChar c) = true := by
  unfold collapseChar
  split_ifs with h1
  · decide
  · exact h

theorem collapseChar_eq_at {c : Char} (h : collapseChar c = '@') : c = '@' := by
  unfold collapseChar at h
  split_ifs at h with h1
  · exact absurd h (by decide)
  · exact h

theorem collapseChar_eq_dot {c : Char} (h : collapseChar c = '.') :
    c = '.' := by
  unfold collapseChar at h
  split_ifs at h with h1
  · exact absurd h (by decide)
  · exact h

theorem collapseChar_of_not_ws {c : Char} (h : pyWS c = false) :
    collapseChar c = c := by
  unfold collapseChar
  split_ifs with h1
  · simp only [Bool.or_eq_true, decide_eq_true_eq] at h1
    rcases h1 with h1 | h1 <;> (subst h1; exact absurd h (by decide))
  · rfl

theorem collapseChar_eq_self {c : Char} (h1 : c ≠ '\r') (h2 : c ≠ '\n') :
    collapseChar c = c := by
  unfold collapseChar
  split_ifs with h
  · simp only [Bool.or_eq_true, decide_eq_true_eq] at h
    rcases h with h | h
    · exact absurd h h1
    · exact absurd h h2
  · rfl

theorem collapseChar_not_cr_lf (c : Char) :
    collapseChar c ≠ '\r' ∧ collapseChar c ≠ '\n' := by
  unfold collapseChar
  split_ifs with h1
  · exact ⟨by decide, by decide⟩
  · constructor
    · intro h; rw [h] at h1; exact absurd h1 (by decide)
    · intro h; rw [h] at h1; exact absurd h1 (by decide)

/-! ### `splitFirst` -/

theorem splitFirst_eq_none {c : Char} :
    ∀ {l : List Char}, splitFirst c l = none → c ∉ l
  | [], _ => by simp
  | x :: xs, h => by
    rw [splitFirst] at h
    split_ifs at h with hx
    rcases hs : splitFirst c xs with _ | p
    · intro hm
      rcases List.mem_cons.1 hm with rfl | hm
      · exact hx rfl
      · exact splitFirst_eq_none hs hm
    · rw [hs] at h; simp at h

theorem splitFirst_decomp {c : Char} :
    ∀ {l : List Char} {a b : List Char},
      splitFirst c l = some (a, b) → l = a ++ c :: b ∧ c ∉ a
  | [], a, b, h => by simp [splitFirst] at h
  | x :: xs, a, b, h => by
    rw [splitFirst] at h
    split_ifs at h with hx
    · obtain ⟨rfl, rfl⟩ : ([] : List Char) = a ∧ xs = b := by
        simpa using h
      simp [hx]
    · rcases hs : splitFirst c xs with _ | ⟨a', b'⟩
      · rw [hs] at h; simp at h
      · rw [hs] at h
        obtain ⟨rfl, rfl⟩ : x :: a' = a ∧ b' = b := by simpa using h
        obtain ⟨hd, hna⟩ := splitFirst_decomp hs
        refine ⟨by rw [List.cons_append, hd], ?_⟩
        intro hm
        rcases List.mem_cons.1 hm with rfl | hm
        · exact hx rfl
        · exact hna hm

theorem splitFirst_of_mem {c : Char} {l : List Char} (h : c ∈ l) :
    ∃ a b, splitFirst c l = some (a, b) := by
  rcases hs : splitFirst c l with _ | ⟨a, b⟩
  · exact absurd h (splitFirst_eq_none hs)
  · exact ⟨a, b, rfl⟩

theorem splitFirst_map {c : Char} {g : Char → Char}
    (hg : ∀ x, g x = c ↔ x = c) :
    ∀ l : List Char,
      splitFirst c (l.map g) =
        (splitFirst c l).map (fun p => (p.1.map g, p.2.map g))
  | [] => rfl
  | x :: xs => by
    rw [List.map_cons, splitFirst, splitFirst]
    by_cases hx : x = c
    · rw [if_pos ((hg x).2 hx), if_pos hx]
      rfl
    · rw [if_neg (fun hc => hx ((hg x).1 hc)), if_neg hx, splitFirst_map hg xs]
      rcases splitFirst c xs with _ | ⟨a, b⟩ <;> rfl

theorem splitFirst_append_of_not_mem {c : Char} {l₁ : List Char}
    (h : c ∉ l₁) (l₂ : List Char) :
    splitFirst c (l₁ ++ l₂) =
      (splitFirst c l₂).map (fun p => (l₁ ++ p.1, p.2)) := by
  induction l₁ with
  | nil =>
    rw [List.nil_append]
    rcases splitFirst c l₂ with _ | ⟨a, b⟩ <;> rfl
  | cons x xs ih =>
    rw [List.cons_append, splitFirst,
      if_neg (fun hx : x = c => h (hx ▸ List.mem_cons_self x xs)),
      ih (fun hm => h (List.mem_cons_of_mem x hm))]
    rcases splitFirst c l₂ with _ | ⟨a, b⟩ <;> rfl

theorem splitFirst_append_of_some {c : Char} {l₁ a b : List Char}
    (h : splitFirst c l₁ = some (a, b)) (l₂ : List Char) :
    splitFirst c (l₁ ++ l₂) = some (a, b ++ l₂) := by
  induction l₁ generalizing a with
  | nil => simp [splitFirst] at h
  | cons x xs ih =>
    rw [splitFirst] at h
    rw [List.cons_append, splitFirst]
    split_ifs at h with hx
    · obtain ⟨rfl, rfl⟩ : ([] : List Char) = a ∧ xs = b := by simpa using h
      rw [if_pos hx]
    · rw [if_neg hx]
      rcases hs : splitFirst c xs with _ | ⟨a', b'⟩
      · rw [hs] at h; simp at h
      · rw [hs] at h
        obtain ⟨rfl, rfl⟩ : x :: a' = a ∧ b' = b := by simpa using h
        rw [ih hs]

/-! ### `stripWS` structure -/

theorem dropWhile_head_false {p : Char → Bool} :
    ∀ {l : List Char} {x : Char}, (l.dropWhile p).head? = some x → p x = false
  | [], x, h => by simp at h
  | y :: ys, x, h => by
    rw [List.dropWhile_cons] at h
    split_ifs at h with hy
    · exact dropWhile_head_false h
    · obtain rfl : y = x := by simpa using h
      exact Bool.not_eq_true _ ▸ hy

theorem dropWhile_eq_self_of {p : Char → Bool} {l : List Char}
    (h : ∀ x, l.head? = some x → p x = false) : l.dropWhile p = l := by
  cases l with
  | nil => rfl
  | cons y ys =>
    rw [List.dropWhile_cons, if_neg]
    rw [h y rfl]
    simp

theorem dropRightWhile_append (p : Char → Bool) (l : List Char) :
    dropRightWhile p l ++ (l.reverse.takeWhile p).reverse = l := by
  conv_rhs =>
    rw [← l.reverse_reverse, ← List.takeWhile_append_dropWhile p l.reverse,
      List.reverse_append]
  rfl

theorem stripWS_append (l : List Char) :
    stripWS l ++ ((l.dropWhile pyWS).reverse.takeWhile pyWS).reverse =
      l.dropWhile pyWS :=
  dropRightWhile_append pyWS (l.dropWhile pyWS)

theorem strip_decomp (l : List Char) :
    l = l.takeWhile pyWS ++ stripWS l ++
      ((l.dropWhile pyWS).reverse.takeWhile pyWS).reverse := by
  conv_lhs => rw [← List.takeWhile_append_dropWhile pyWS l, ← stripWS_append l]
  rw [List.append_assoc]

theorem mem_stripWS {x : Char} {l : List Char} (h : x ∈ stripWS l) :
    x ∈ l := by
  have h1 : x ∈ l.dropWhile pyWS := by
    rw [← stripWS_append l]
    exact List.mem_append_left _ h
  rw [← List.takeWhile_append_dropWhile pyWS l]
  exact List.mem_append_right _ h1

theorem stripWS_head_false {l : List Char} {x : Char}
    (h : (stripWS l).head? = some x) : pyWS x = false := by
  apply dropWhile_head_false (p := pyWS) (l := l)
  rw [← stripWS_append l]
  cases hs : stripWS l with
  | nil => rw [hs] at h; simp at h
  | cons y ys =>
    rw [hs] at h
    obtain rfl : y = x := by simpa using h
    rw [List.cons_append]
    rfl

theorem stripWS_last_false {l : List Char} {x : Char}
    (h : (stripWS l).getLast? = some x) : pyWS x = false := by
  apply dropWhile_head_false (p := pyWS) (l := (l.dropWhile pyWS).reverse)
  rw [← List.head?_reverse] at h
  rw [show ((l.dropWhile pyWS).reverse.dropWhile pyWS) =
      (stripWS l).reverse by rw [stripWS, dropRightWhile, List.reverse_reverse]]
  exact h

theorem stripWS_eq_self_of {l : List Char}
    (h1 : ∀ x, l.head? = some x → pyWS x = false)
    (h2 : ∀ x, l.getLast? = some x → pyWS x = false) : stripWS l = l := by
  rw [stripWS, dropWhile_eq_self_of h1, dropRightWhile,
    dropWhile_eq_self_of (fun x hx => h2 x (by rw [← List.head?_reverse]; exact hx)),
    List.reverse_reverse]

/-! ### `_clean` -/

theorem map_id_of {f : Char → Char} :
    ∀ {l : List Char}, (∀ x ∈ l, f x = x) → l.map f = l
  | [], _ => rfl
  | x :: xs, h => by
    rw [List.map_cons, h x (List.mem_cons_self _ _),
      map_id_of (fun y hy => h y (List.mem_cons_of_mem _ hy))]

theorem clean_of_le {s : List Char} {maxLen : Nat}
    (h : (stripWS s).length ≤ maxLen) :
    _clean s maxLen = (stripWS s).map collapseChar := by
  unfold _clean
  rw [if_neg]
  rw [List.length_map]
  exact Nat.not_lt.2 h

theorem clean_of_gt {s : List Char} {maxLen : Nat}
    (h : maxLen < (stripWS s).length) :
    _clean s maxLen =
      ((stripWS s).map collapseChar).take (maxLen - 1) ++ ['…'] := by
  unfold _clean
  rw [if_pos]
  rw [List.length_map]
  exact h

theorem mem_clean_core {s : List Char} {x : Char}
    (h : x ∈ (stripWS s).map collapseChar) : x ≠ '\r' ∧ x ≠ '\n' := by
  rcases List.mem_map.1 h with ⟨y, _, rfl⟩
  exact collapseChar_not_cr_lf y

theorem clean_core_head {s : List Char} {x : Char}
    (h : ((stripWS s).map collapseChar).head? = some x) : pyWS x = false := by
  rw [List.head?_map] at h
  rcases hy : (stripWS s).head? with _ | y
  · rw [hy] at h; simp at h
  · rw [hy] at h
    obtain rfl : collapseChar y = x := by simpa using h
    rw [collapseChar_of_not_ws (stripWS_head_false hy)]
    exact stripWS_head_false hy

theorem clean_core_last {s : List Char} {x : Char}
    (h : ((stripWS s).map collapseChar).getLast? = some x) :
    pyWS x = false := by
  rw [List.getLast?_map] at h
  rcases hy : (stripWS s).getLast? with _ | y
  · rw [hy] at h; simp at h
  · rw [hy] at h
    obtain rfl : collapseChar y = x := by simpa using h
    rw [collapseChar_of_not_ws (stripWS_last_false hy)]
    exact stripWS_last_false hy

/-- A list whose head and last are not whitespace and whose characters
contain no carriage return or newline is a fixed point of the
strip-and-collapse prefix of `_clean`. -/
theorem clean_core_fixed {u : List Char}
    (hh : ∀ x, u.head? = some x → pyWS x = false)
    (hl : ∀ x, u.getLast? = some x → pyWS x = false)
    (hc : ∀ x ∈ u, x ≠ '\r' ∧ x ≠ '\n') :
    (stripWS u).map collapseChar = u := by
  rw [stripWS_eq_self_of hh hl]
  exact map_id_of (fun x hx =>
    collapseChar_eq_self (hc x hx).1 (hc x hx).2)

theorem head?_take_pos {l : List Char} {n : Nat} (h : 0 < n) :
    (l.take n).head? = l.head? := by
  cases l with
  | nil => simp
  | cons x xs =>
    cases n with
    | zero => exact absurd h (by simp)
    | succ m => rfl

/-- The three `clean_core` facts for the truncated value
`t.take (maxLen-1) ++ ['…']`: its ends are not whitespace and it has no
CR/LF, provided `t` is a clean core with `t ≠ []`. -/
theorem truncated_fixed {s : List Char} {n : Nat}
    (hn : 0 < n) (hne : ((stripWS s).map collapseChar).length ≠ 0) :
    (stripWS (((stripWS s).map collapseChar).take n ++ ['…'])).map
        collapseChar =
      ((stripWS s).map collapseChar).take n ++ ['…'] := by
  set t := (stripWS s).map collapseChar with ht
  apply clean_core_fixed
  · intro x hx
    rcases hc : t.head? with _ | c
    · exfalso
      have hnil : t = [] := by rwa [List.head?_eq_none_iff] at hc
      rw [hnil] at hne
      exact hne rfl
    · have h1 : (t.take n).head? = some c := by rw [head?_take_pos hn, hc]
      rw [List.head?_append, h1] at hx
      obtain rfl : c = x := by simpa using hx
      exact clean_core_head (ht ▸ hc)
  · intro x hx
    rw [List.getLast?_concat] at hx
    obtain rfl : '…' = x := by simpa using hx
    decide
  · intro x hx
    rcases List.mem_append.1 hx with hx | hx
    · exact mem_clean_core (ht ▸ List.take_subset n t hx)
    · obtain rfl : x = '…' := by simpa using hx
      exact ⟨by decide, by decide⟩

/-- C10: `_clean` is idempotent at the default cap 800: a value that has
already been stripped, newline-collapsed and (possibly) truncated with
the ellipsis marker passes through `_clean` unchanged. -/
theorem clean_idempotent_800 (s : List Char) :
    _clean (_clean s 800) 800 = _clean s 800 := by
  by_cases hlen : 800 < (stripWS s).length
  · rw [clean_of_gt hlen]
    have hne : ((stripWS s).map collapseChar).length ≠ 0 := by
      rw [List.length_map]; omega
    have hfix := truncated_fixed (s := s) (n := 800 - 1) (by omega) hne
    have hul : (((stripWS s).map collapseChar).take (800 - 1) ++
        ['…']).length = 800 := by
      rw [List.length_append, List.length_take, List.length_map]
      have : min (800 - 1) (stripWS s).length = 799 := by omega
      simpa using this
    rw [clean_of_le (by
      have hs := congrArg List.length hfix
      rw [List.length_map] at hs
      omega)]
    exact hfix
  · rw [clean_of_le (Nat.not_lt.1 hlen)]
    have hfix : (stripWS ((stripWS s).map collapseChar)).map collapseChar =
        (stripWS s).map collapseChar :=
      clean_core_fixed (fun x hx => clean_core_head hx)
        (fun x hx => clean_core_last hx) (fun x hx => mem_clean_core hx)
    rw [clean_of_le (by
      have hs := congrArg List.length hfix
      rw [List.length_map] at hs
      rw [List.length_map] at hs
      omega)]
    exact hfix

/-! ### The stored lead message (C3) -/

set_option maxRecDepth 40000 in
/-- C3 counterexample: the claim measures the raw message length.  A
message of 801 spaces has raw length 801 > 800, yet it is stored as the
empty string (length 0, no ellipsis marker), because `_clean` strips
before it measures; and a message `" hi "` of length ≤ 800 is stored as
`"hi"`, which differs from the message by more than newline collapsing. -/
theorem leadMessage_truncation_cex :
    800 < (List.replicate 801 ' ').length ∧
      (leadMessage (List.replicate 801 ' ')).length = 0 ∧
      (S " hi ").length ≤ 800 ∧
      leadMessage (S " hi ") ≠ (S " hi ").map collapseChar := by
  refine ⟨by simp, by decide, by decide, by decide⟩

/-- C3 (amended): with the stored-message source `x` being the message
(or the default `"General inquiry"` when it is empty) and `c` its
stripped, newline-collapsed form: if `c` exceeds 800 characters the
message is stored with length exactly 800 ending in the ellipsis marker,
and otherwise it is stored as exactly `c`. -/
theorem leadMessage_truncation_spec (m : List Char) :
    (800 < (stripWS (if m.isEmpty then S "General inquiry" else m)).length →
      (leadMessage m).length = 800 ∧ (leadMessage m).getLast? = some '…') ∧
    ((stripWS (if m.isEmpty then S "General inquiry" else m)).length ≤ 800 →
      leadMessage m =
        (stripWS (if m.isEmpty then S "General inquiry" else m)).map
          collapseChar) := by
  constructor
  · intro h
    rw [leadMessage, clean_of_gt h]
    constructor
    · rw [List.length_append, List.length_take, List.length_map]
      simp only [List.length_singleton]
      omega
    · exact List.getLast?_concat _
  · intro h
    rw [leadMessage, clean_of_le h]

set_option maxRecDepth 40000 in
/-- Witness for C3: both branches of the amended statement at concrete
messages. -/
theorem leadMessage_truncation_spec_witness :
    ((leadMessage (List.replicate 900 'a')).length = 800 ∧
      (leadMessage (List.replicate 900 'a')).getLast? = some '…') ∧
      leadMessage (S "Pricing for teleconsult") =
        (stripWS (if (S "Pricing for teleconsult").isEmpty then
          S "General inquiry" else S "Pricing for teleconsult")).map
          collapseChar :=
  ⟨(leadMessage_truncation_spec (List.replicate 900 'a')).1 (by decide),
    (leadMessage_truncation_spec (S "Pricing for teleconsult")).2 (by decide)⟩

/-! ### `emailMatch` (C2) -/

theorem emailChar_ws {c : Char} (h : emailChar c = true) : pyWS c = false := by
  simp only [emailChar, Bool.and_eq_true] at h
  simpa using h.2

theorem emailMatch_decomp {s : List Char} (h : emailMatch s = true) :
    ∃ a rest, splitFirst '@' s = some (a, rest) ∧ a ≠ [] ∧
      (∀ x ∈ a, emailChar x = true) ∧ (∀ x ∈ rest, emailChar x = true) ∧
      '.' ∈ rest := by
  unfold emailMatch at h
  rcases hs : splitFirst '@' s with _ | ⟨a, rest⟩
  · rw [hs] at h; simp at h
  · rw [hs] at h
    simp only [Bool.and_eq_true, List.all_eq_true] at h
    obtain ⟨⟨⟨hne, hall⟩, hrest⟩, hdot⟩ := h
    refine ⟨a, rest, rfl, by simpa using hne, hall, hrest, ?_⟩
    have hmem : '.' ∈ (rest.drop 1).dropLast := List.elem_iff.1 hdot
    exact List.drop_subset 1 rest (List.dropLast_subset _ hmem)

theorem emailMatch_no_ws {s : List Char} (h : emailMatch s = true) :
    ∀ x ∈ s, pyWS x = false := by
  obtain ⟨a, rest, hs, _, ha, hr, _⟩ := emailMatch_decomp h
  obtain ⟨hd, _⟩ := splitFirst_decomp hs
  intro x hx
  rw [hd] at hx
  rcases List.mem_append.1 hx with hx | hx
  · exact emailChar_ws (ha x hx)
  · rcases List.mem_cons.1 hx with rfl | hx
    · decide
    · exact emailChar_ws (hr x hx)

theorem emailMatch_has_at {s : List Char} (h : emailMatch s = true) :
    '@' ∈ s := by
  obtain ⟨a, rest, hs, _, _, _, _⟩ := emailMatch_decomp h
  obtain ⟨hd, _⟩ := splitFirst_decomp hs
  rw [hd]
  exact List.mem_append_right _ (List.mem_cons_self _ _)

theorem gl_at (c : Char) : pyLower (collapseChar c) = '@' ↔ c = '@' := by
  constructor
  · intro h
    exact collapseChar_eq_at (pyLower_eq_at h)
  · rintro rfl
    decide

theorem gl_dot {c : Char} (h : pyLower (collapseChar c) = '.') : c = '.' :=
  collapseChar_eq_dot (pyLower_eq_dot h)

theorem gl_ws {c : Char} (h : pyWS c = true) :
    pyWS (pyLower (collapseChar c)) = true := by
  rw [pyLower_of_ws (collapseChar_of_ws h)]
  exact collapseChar_of_ws h

/-- With no truncation (stripped length within the cap), the cleaned and
lowercased email is the character-wise image of the stripped email. -/
theorem cleanedEmail_of_le {email : List Char}
    (h : (stripWS email).length ≤ 200) :
    cleanedEmail email =
      (stripWS email).map (pyLower ∘ collapseChar) := by
  rw [cleanedEmail, clean_of_le h, List.map_map]

/-- Core of C2: a malformed email whose stripped form is within the
200-character cap (so no truncation happens) cannot pass `EMAIL_RE`
after cleaning and lowercasing. -/
theorem malformed_no_match {email : List Char}
    (hlen : (stripWS email).length ≤ 200)
    (hmal : malformedEmail email = true) :
    emailMatch (cleanedEmail email) = false := by
  rw [cleanedEmail_of_le hlen]
  cases hEM : emailMatch ((stripWS email).map (pyLower ∘ collapseChar)) with
  | false => rfl
  | true =>
    exfalso
    simp only [malformedEmail, Bool.or_eq_true] at hmal
    rcases hmal with (h1 | h2) | h3
    · -- the email has no '@' at all
      have hat := emailMatch_has_at hEM
      rcases List.mem_map.1 hat with ⟨c, hc, hgc⟩
      have hgc' : pyLower (collapseChar c) = '@' := hgc
      obtain rfl : c = '@' := (gl_at c).1 hgc'
      have hmem : '@' ∈ email := mem_stripWS hc
      have h1' : '@' ∉ email := by simpa using h1
      exact h1' hmem
    · -- the part after the first '@' has no dot
      rcases hsp : splitFirst '@' email with _ | ⟨a0, d0⟩
      · rw [hsp] at h2; simp at h2
      · rw [hsp] at h2
        have hdot0 : '.' ∉ d0 := by simpa using h2
        obtain ⟨a', r', hs', _, _, _, hdot'⟩ := emailMatch_decomp hEM
        rw [splitFirst_map (g := pyLower ∘ collapseChar) (fun x => gl_at x)
          (stripWS email)] at hs'
        rcases hsp1 : splitFirst '@' (stripWS email) with _ | ⟨a1, r1⟩
        · rw [hsp1] at hs'; simp at hs'
        · rw [hsp1] at hs'
          obtain ⟨ha', hr'⟩ :
              a1.map (pyLower ∘ collapseChar) = a' ∧
                r1.map (pyLower ∘ collapseChar) = r' := by simpa using hs'
          rcases List.mem_map.1 (hr' ▸ hdot') with ⟨c, hc, hgc⟩
          have hgc' : pyLower (collapseChar c) = '.' := hgc
          obtain rfl : c = '.' := gl_dot hgc'
          have hpre : '@' ∉ email.takeWhile pyWS := by
            intro hm
            have := List.mem_takeWhile_imp hm
            exact absurd this (by decide)
          have h5 := splitFirst_append_of_some hsp1
            (((email.dropWhile pyWS).reverse.takeWhile pyWS).reverse)
          have h6 := splitFirst_append_of_not_mem hpre
            (stripWS email ++
              ((email.dropWhile pyWS).reverse.takeWhile pyWS).reverse)
          rw [h5] at h6
          have hdec' : email = email.takeWhile pyWS ++
              (stripWS email ++
                ((email.dropWhile pyWS).reverse.takeWhile pyWS).reverse) := by
            conv_lhs => rw [strip_decomp email]
            rw [List.append_assoc]
          rw [← hdec', hsp] at h6
          obtain ⟨_, hd0⟩ : a0 = email.takeWhile pyWS ++ a1 ∧
              d0 = r1 ++
                ((email.dropWhile pyWS).reverse.takeWhile pyWS).reverse := by
            simpa using h6
          exact hdot0 (hd0 ▸ List.mem_append_left _ hc)
    · -- whitespace survives the strip
      rcases List.any_eq_true.1 h3 with ⟨w, hw, hws⟩
      have hmem : (pyLower ∘ collapseChar) w ∈
          (stripWS email).map (pyLower ∘ collapseChar) :=
        List.mem_map.2 ⟨w, hw, rfl⟩
      have hfalse : pyWS (pyLower (collapseChar w)) = false :=
        emailMatch_no_ws hEM _ hmem
      rw [gl_ws hws] at hfalse
      exact Bool.noConfusion hfalse

set_option maxRecDepth 40000 in
/-- C2 counterexample: an email argument longer than the 200-character
cap whose only flaw is embedded whitespace beyond the cap.  `_clean`
truncates the whitespace away and appends the ellipsis, the result passes
`EMAIL_RE`, and the call saves a lead and returns `"Lead saved."` instead
of rejecting — so unrestricted, the claim is false. -/
theorem rci_invalid_email_cex :
    malformedEmail (S "a@b." ++ List.replicate 195 'x' ++ S " q") = true ∧
      (record_customer_interest (S "t0")
        (S "a@b." ++ List.replicate 195 'x' ++ S " q") (S "Bob") (S "hi")
        st0).1 = S "Lead saved." ∧
      S "Lead saved." ≠ S "Invalid email address." := by
  refine ⟨by decide, by decide, by decide⟩

/-- C2 (amended): for every email argument that escapes truncation (its
stripped form is within the 200-character cap) and is malformed (missing
`@`, missing a dot after the first `@`, or containing embedded
whitespace), `record_customer_interest` returns the invalid-email
message and leaves every log store unchanged, whatever the other
arguments. -/
theorem rci_malformed_email_rejected (ts email nm msg : List Char)
    (st : LogState) (hlen : (stripWS email).length ≤ 200)
    (hmal : malformedEmail email = true) :
    record_customer_interest ts email nm msg st =
      (S "Invalid email address.", st) := by
  have h := malformed_no_match hlen hmal
  simp [record_customer_interest, h]

/-- Witness for C2: a concrete email with no `@` is rejected with no
write. -/
theorem rci_malformed_email_rejected_witness :
    record_customer_interest (S "t0") (S "bob.example.com") (S "Bob")
      (S "hi") st0 = (S "Invalid email address.", st0) :=
  rci_malformed_email_rejected _ _ _ _ _ (by decide) (by decide)

/-- C8 counterexample: the email check runs before the name check, so an
empty name together with an invalid email yields the invalid-email
message, not the missing-name message the claim promises "regardless of
the other arguments". -/
theorem rci_missing_name_cex :
    stripWS (S "") = [] ∧
      (record_customer_interest (S "t0") (S "not-an-email") (S "")
        (S "hi") st0).1 = S "Invalid email address." ∧
      S "Invalid email address." ≠ S "Please provide a name." := by
  refine ⟨by decide, by decide, by decide⟩

/-- C8 (amended): for every empty or whitespace-only name argument the
call writes nothing to any store, and — provided the email argument
passes validation — it returns the missing-name message. -/
theorem rci_missing_name_rejected (ts email nm msg : List Char)
    (st : LogState) (hn : stripWS nm = []) :
    (emailMatch (cleanedEmail email) = true →
      record_customer_interest ts email nm msg st =
        (S "Please provide a name.", st)) ∧
    (record_customer_interest ts email nm msg st).2 = st := by
  have hclean : _clean nm 200 = [] := by
    rw [clean_of_le (by rw [hn]; simp), hn]
    rfl
  cases hEM : emailMatch (cleanedEmail email) with
  | false =>
    constructor
    · intro h
      exact Bool.noConfusion h
    · simp [record_customer_interest, hEM]
  | true =>
    have hres : record_customer_interest ts email nm msg st =
        (S "Please provide a name.", st) := by
      simp [record_customer_interest, hEM, hclean]
    exact ⟨fun _ => hres, by rw [hres]⟩

/-- Witness for C8: a whitespace-only name with a valid email is
rejected with the missing-name message and no write. -/
theorem rci_missing_name_rejected_witness :
    record_customer_interest (S "t0") (S "jane@x.com") (S "   ")
      (S "hello") st0 = (S "Please provide a name.", st0) :=
  (rci_missing_name_rejected _ _ _ _ _ (by decide)).1 (by decide)

/-! ### `record_feedback` (C9) -/

/-- C9: for every question that survives cleaning, the primary write is
attempted first; when the primary write fails, exactly one fallback
write (to the current working directory's logs folder) is attempted; and
when both fail, the call returns the composite error string naming both
failures and leaves every store unchanged.  The model is a total
function: no exception escapes the handler. -/
theorem record_feedback_fallback_policy (ts q : List Char)
    (pe fe : Option (List Char)) (st : LogState)
    (hq : _clean q 1000 ≠ []) :
    (record_feedback ts q pe fe st).attempts =
      WDest.feedbackPrimary ::
        (match pe with
         | some _ => [WDest.feedbackFallbackCwd]
         | none => []) ∧
    (∀ e e2, pe = some e → fe = some e2 →
      (record_feedback ts q pe fe st).result =
        S "Failed to record feedback: " ++ e ++ S " | fallback error: " ++
          e2 ∧
      (record_feedback ts q pe fe st).state = st) := by
  have hq' : (_clean q 1000).isEmpty = false := by
    cases hc : _clean q 1000 with
    | nil => exact absurd hc hq
    | cons x xs => rfl
  rcases pe with _ | e
  · constructor
    · simp [record_feedback, hq']
    · intro e e2 he
      exact absurd he (by simp)
  · rcases fe with _ | e2
    · constructor
      · simp [record_feedback, hq']
      · intro e' e2' he' he2'
        exact absurd he2' (by simp)
    · constructor
      · simp [record_feedback, hq']
      · intro e' e2' he' he2'
        obtain rfl : e = e' := by simpa using he'
        obtain rfl : e2 = e2' := by simpa using he2'
        constructor
        · simp [record_feedback, hq']
        · simp [record_feedback, hq']

/-- Witness for C9: both failure strings rendered, one fallback attempt,
stores unchanged. -/
theorem record_feedback_fallback_policy_witness :
    (record_feedback (S "t0") (S "Do you accept Bitcoin?")
      (some (S "boom1")) (some (S "boom2")) st0).attempts =
      WDest.feedbackPrimary :: [WDest.feedbackFallbackCwd] ∧
    (record_feedback (S "t0") (S "Do you accept Bitcoin?")
      (some (S "boom1")) (some (S "boom2")) st0).result =
      S "Failed to record feedback: " ++ S "boom1" ++
        S " | fallback error: " ++ S "boom2" ∧
    (record_feedback (S "t0") (S "Do you accept Bitcoin?")
      (some (S "boom1")) (some (S "boom2")) st0).state = st0 := by
  obtain ⟨h1, h2⟩ := record_feedback_fallback_policy (S "t0")
    (S "Do you accept Bitcoin?") (some (S "boom1")) (some (S "boom2")) st0
    (by decide)
  obtain ⟨h3, h4⟩ := h2 _ _ rfl rfl
  exact ⟨h1, h3, h4⟩

/-! ### Argument normalisation (C4) -/

/-- C4 counterexample: text that decodes to a non-mapping is kept as
decoded by the code, while the spec says it should degrade to the empty
mapping: the two sides differ on `rawArgs = "[1]"`. -/
theorem normalizeArgs_cex :
    normalizeArgs cexParse (.str (S "[1]")) = PyVal.arr [PyVal.num 1] ∧
      specNormalizeArgs cexParse (.str (S "[1]")) = PyVal.dict [] ∧
      PyVal.arr [PyVal.num 1] ≠ PyVal.dict [] :=
  ⟨rfl, rfl, fun h => PyVal.noConfusion h⟩

/-- C4 (amended): the dispatcher's normalisation parses text and keeps
whatever the parse returns (also a non-mapping); empty or unparseable
text degrades to the empty mapping; a mapping passes through; and an
originally non-text non-mapping value is replaced by the empty mapping. -/
theorem normalizeArgs_spec (parse : List Char → Option PyVal) :
    (∀ d, normalizeArgs parse (.dict d) = .dict d) ∧
    (∀ s v, s ≠ [] → parse s = some v →
      normalizeArgs parse (.str s) = v) ∧
    (∀ s, s = [] ∨ parse s = none →
      normalizeArgs parse (.str s) = .dict []) ∧
    (∀ xs, normalizeArgs parse (.arr xs) = .dict []) ∧
    (∀ n, normalizeArgs parse (.num n) = .dict []) ∧
    (∀ b, normalizeArgs parse (.boolean b) = .dict []) ∧
    normalizeArgs parse .null = .dict [] := by
  refine ⟨fun d => rfl, ?_, ?_, fun xs => rfl, fun n => rfl, fun b => rfl,
    rfl⟩
  · intro s v hs hv
    have hse : s.isEmpty = false := by
      cases s with
      | nil => exact absurd rfl hs
      | cons a as => rfl
    show (if s.isEmpty = true then PyVal.dict []
        else match parse s with
          | some w => w
          | none => PyVal.dict []) = v
    simp [hse, hv]
  · intro s hsv
    rcases hsv with rfl | hv
    · rfl
    · show (if s.isEmpty = true then PyVal.dict []
        else match parse s with
          | some w => w
          | none => PyVal.dict []) = PyVal.dict []
      cases hse : s.isEmpty with
      | true => simp [hse]
      | false => simp [hse, hv]

/-- Witness for C4: the three hypothesis-bearing branches at concrete
inputs. -/
theorem normalizeArgs_spec_witness :
    normalizeArgs cexParse (.str (S "[1]")) = PyVal.arr [PyVal.num 1] ∧
      normalizeArgs cexParse (.str (S "zzz")) = PyVal.dict [] ∧
      normalizeArgs cexParse (.dict [(S "a", PyVal.null)]) =
        PyVal.dict [(S "a", PyVal.null)] := by
  refine ⟨?_, ?_, (normalizeArgs_spec cexParse).1 _⟩
  · exact (normalizeArgs_spec cexParse).2.1 _ _ (by decide) rfl
  · exact (normalizeArgs_spec cexParse).2.2.1 _ (Or.inr rfl)

/-! ### History adapter (C6) -/

theorem tuplize_msgs_eq (l : List RoleMsg) :
    _tuplize (.msgs l) = tupGo l none := by
  cases l with
  | nil => rfl
  | cons m rest => rfl

theorem pyOrEmpty_some (u : List Char) : pyOrEmpty (some u) = u := by
  show (if u.isEmpty = true then [] else u) = u
  split_ifs with h
  · exact (List.isEmpty_iff.1 h).symm
  · rfl

theorem tupGo_append_user (u : List Char) :
    ∀ (l : List RoleMsg) (p : Option (List Char)),
      tupGo (l ++ [⟨some (S "user"), u⟩]) p = tupGo l p
  | [], p => by simp [tupGo]
  | m :: rest, p => by
    rw [List.cons_append, tupGo, tupGo]
    split_ifs with h1 h2
    · exact tupGo_append_user u rest _
    · rw [tupGo_append_user u rest none]
    · exact tupGo_append_user u rest p

/-- C6: the history adapter.  Empty or absent history yields the empty
sequence (in all three input shapes).  A trailing user message with no
following assistant message is dropped.  An assistant message is paired
with the most recent unmatched user message and the pending user is then
cleared, so the rest of the fold proceeds as from scratch; a second user
message replaces the pending one.  Purity holds by construction: the
adapter is a plain function of its argument. -/
theorem tuplize_role_adapter_spec :
    (_tuplize .absent = [] ∧ _tuplize (.msgs []) = [] ∧
      _tuplize (.pairs []) = []) ∧
    (∀ l u, _tuplize (.msgs (l ++ [⟨some (S "user"), u⟩])) =
      _tuplize (.msgs l)) ∧
    (∀ u a l,
      _tuplize (.msgs (⟨some (S "user"), u⟩ ::
          ⟨some (S "assistant"), a⟩ :: l)) =
        (u, a) :: _tuplize (.msgs l)) ∧
    (∀ u u' l,
      _tuplize (.msgs (⟨some (S "user"), u⟩ :: ⟨some (S "user"), u'⟩ :: l)) =
        _tuplize (.msgs (⟨some (S "user"), u'⟩ :: l))) := by
  refine ⟨⟨rfl, rfl, rfl⟩, ?_, ?_, ?_⟩
  · intro l u
    rw [tuplize_msgs_eq, tuplize_msgs_eq, tupGo_append_user]
  · intro u a l
    rw [tuplize_msgs_eq, tuplize_msgs_eq, tupGo, if_pos rfl, tupGo,
      if_neg (show ¬(RoleMsg.mk (some (S "assistant")) a).role =
        some (S "user") from
          (by decide : ¬(some (S "assistant") = some (S "user")))),
      if_pos rfl, pyOrEmpty_some]
  · intro u u' l
    rw [tuplize_msgs_eq, tuplize_msgs_eq, tupGo, if_pos rfl, tupGo,
      if_pos rfl, tupGo, if_pos rfl]

/-! ### Readiness gate (C7) -/

theorem ready_false_of {key : Option (List Char)}
    (h : stripWS (key.getD []) = [] ∨
      ((S "sk-").isPrefixOf (stripWS (key.getD [])) = false ∧
        (S "sk-proj-").isPrefixOf (stripWS (key.getD [])) = false) ∨
      (stripWS (key.getD [])).length ≤ 40) :
    _provider_ready key = false := by
  rcases h with h | ⟨h1, h2⟩ | h
  · simp [_provider_ready, h]
  · simp [_provider_ready, h1, h2]
  · have hd : decide (40 < (stripWS (key.getD [])).length) = false := by
      simpa using Nat.not_lt.2 h
    simp [_provider_ready, hd]

/-- C7: when the configured credential is empty after stripping, lacks
both accepted provider-key prefixes, or does not exceed 40 characters,
`run_agent` returns the fixed setup message with the stores untouched —
for every provider oracle, i.e. the provider is never contacted.  The
readiness check itself is the pure predicate `_provider_ready` of the
credential alone. -/
theorem run_agent_setup_gate (key : Option (List Char))
    (parse : List Char → Option PyVal) (pe fe : Option (List Char))
    (ts sys : List Char) (hist : History) (txt : List Char) (st : LogState)
    (o1 o2 : Oracle)
    (h : stripWS (key.getD []) = [] ∨
      ((S "sk-").isPrefixOf (stripWS (key.getD [])) = false ∧
        (S "sk-proj-").isPrefixOf (stripWS (key.getD [])) = false) ∨
      (stripWS (key.getD [])).length ≤ 40) :
    run_agent key parse pe fe ts sys hist txt st o1 o2 = (SETUP_MSG, st) := by
  have hr := ready_false_of h
  simp [run_agent, hr]

/-- Witness for C7: an unset credential yields the setup message under
arbitrary concrete oracles. -/
theorem run_agent_setup_gate_witness :
    run_agent none cexParse none none (S "t0") (S "sys") History.absent
      (S "hi") st0 wO1 wO2 = (SETUP_MSG, st0) :=
  run_agent_setup_gate none cexParse none none (S "t0") (S "sys")
    History.absent (S "hi") st0 wO1 wO2 (Or.inl (by decide))

/-! ### Dispatcher error surface (C5) -/

/-- C5: `_dispatch_tool` is a total function (no exception crosses its
boundary — every Python fault is a result string by construction), and
its error surface is: an unknown tool name yields exactly
`"Unknown tool: <name>"` with no write; a keyword-binding failure or a
normalised non-mapping yields `"Tool '<name>' argument error: …"` with no
write; any other handler failure (a truthy non-string argument) yields
`"Tool '<name>' failed: …"` with no write. -/
theorem dispatch_error_surface (parse : List Char → Option PyVal)
    (pe fe : Option (List Char)) (ts nm : List Char) (raw : PyVal)
    (st : LogState) :
    ((nm ≠ RCI_NAME ∧ nm ≠ RF_NAME) →
      _dispatch_tool parse pe fe ts nm raw st =
        (S "Unknown tool: " ++ nm, st)) ∧
    (∀ d m, normalizeArgs parse raw = .dict d → nm = RCI_NAME →
      kwargsRci d = .error m →
      _dispatch_tool parse pe fe ts nm raw st =
        (S "Tool '" ++ nm ++ S "' argument error: " ++ m, st)) ∧
    (∀ d m, normalizeArgs parse raw = .dict d → nm = RF_NAME →
      kwargsRf d = .error m →
      _dispatch_tool parse pe fe ts nm raw st =
        (S "Tool '" ++ nm ++ S "' argument error: " ++ m, st)) ∧
    ((∀ d, normalizeArgs parse raw ≠ .dict d) →
      nm = RCI_NAME ∨ nm = RF_NAME →
      _dispatch_tool parse pe fe ts nm raw st =
        (S "Tool '" ++ nm ++ S "' argument error: " ++
          S "argument after ** must be a mapping", st)) ∧
    (∀ d ev nv mv m, normalizeArgs parse raw = .dict d → nm = RCI_NAME →
      kwargsRci d = .ok (ev, nv, mv) → coerceRci ev nv mv = .error m →
      _dispatch_tool parse pe fe ts nm raw st =
        (S "Tool '" ++ nm ++ S "' failed: " ++ m, st)) ∧
    (∀ d qv m, normalizeArgs parse raw = .dict d → nm = RF_NAME →
      kwargsRf d = .ok qv → pyCoerceStr qv = .error m →
      _dispatch_tool parse pe fe ts nm raw st =
        (S "Tool '" ++ nm ++ S "' failed: " ++ m, st)) := by
  have hrfne : RF_NAME ≠ RCI_NAME := by decide
  refine ⟨?_, ?_, ?_, ?_, ?_, ?_⟩
  · rintro ⟨h1, h2⟩
    rcases hN : normalizeArgs parse raw with s | d | xs | n | b | _ <;>
      simp [_dispatch_tool, hN, h1, h2]
  · rintro d m hN rfl hkw
    simp [_dispatch_tool, hN, hkw]
  · rintro d m hN rfl hkw
    simp [_dispatch_tool, hN, hkw, hrfne]
  · rintro hnd hor
    rcases hN : normalizeArgs parse raw with s | d | xs | n | b | _
    case dict => exact absurd hN (hnd d)
    all_goals rcases hor with rfl | rfl <;> simp [_dispatch_tool, hN, hrfne]
  · rintro d ev nv mv m hN rfl hkw hco
    simp [_dispatch_tool, hN, hkw, hco]
  · rintro d qv m hN rfl hkw hco
    simp [_dispatch_tool, hN, hkw, hco, hrfne]

/-- Witness for C5: the four error shapes at concrete inputs — unknown
tool, missing required argument, text decoding to a non-mapping, and a
truthy non-string argument value. -/
theorem dispatch_error_surface_witness :
    _dispatch_tool cexParse none none (S "t0") (S "foo") (.dict []) st0 =
      (S "Unknown tool: " ++ S "foo", st0) ∧
    _dispatch_tool cexParse none none (S "t0") RCI_NAME (.dict []) st0 =
      (S "Tool '" ++ RCI_NAME ++ S "' argument error: " ++
        S "missing required argument", st0) ∧
    _dispatch_tool cexParse none none (S "t0") RF_NAME (.str (S "[1]"))
        st0 =
      (S "Tool '" ++ RF_NAME ++ S "' argument error: " ++
        S "argument after ** must be a mapping", st0) ∧
    _dispatch_tool cexParse none none (S "t0") RCI_NAME
        (.dict [(S "email", PyVal.num 5), (S "name", PyVal.str (S "B")),
          (S "message", PyVal.str (S "m"))]) st0 =
      (S "Tool '" ++ RCI_NAME ++ S "' failed: " ++
        S "AttributeError: strip", st0) := by
  refine ⟨?_, ?_, ?_, ?_⟩
  · exact (dispatch_error_surface cexParse none none (S "t0") (S "foo")
      (.dict []) st0).1 ⟨by decide, by decide⟩
  · exact (dispatch_error_surface cexParse none none (S "t0") RCI_NAME
      (.dict []) st0).2.1 [] (S "missing required argument") rfl rfl rfl
  · refine (dispatch_error_surface cexParse none none (S "t0") RF_NAME
      (.str (S "[1]")) st0).2.2.2.1 ?_ (Or.inr rfl)
    intro d h
    rw [show normalizeArgs cexParse (.str (S "[1]")) =
      PyVal.arr [PyVal.num 1] from rfl] at h
    exact PyVal.noConfusion h
  · exact (dispatch_error_surface cexParse none none (S "t0") RCI_NAME
      (.dict [(S "email", PyVal.num 5), (S "name", PyVal.str (S "B")),
        (S "message", PyVal.str (S "m"))]) st0).2.2.2.2.1
      _ _ _ _ _ rfl rfl rfl rfl

/-! ### The tool-calling round (C1) -/

theorem dispatchRound_shape (parse : List Char → Option PyVal)
    (pe fe : Option (List Char)) (ts : List Char) :
    ∀ (tcs : List ToolCall) (st : LogState),
      ∃ rs : List (List Char), rs.length = tcs.length ∧
        (dispatchRound parse pe fe ts tcs st).1 =
          List.zipWith (fun tc r => PyMsg.tool tc.id tc.nm r) tcs rs
  | [], st => ⟨[], rfl, rfl⟩
  | tc :: rest, st => by
    obtain ⟨rs, hlen, hsh⟩ := dispatchRound_shape parse pe fe ts rest
      (_dispatch_tool parse pe fe ts tc.nm (parseCallArgs parse tc) st).2
    refine ⟨(_dispatch_tool parse pe fe ts tc.nm
      (parseCallArgs parse tc) st).1 :: rs, by simp [hlen], ?_⟩
    simp [dispatchRound, hsh]

/-- C1: when the first provider call returns tool-call requests, every
requested call is dispatched — the tool-message list has one entry per
request (dispatch is total, so no failure short-circuits the rest) — in
the order the provider returned them, each entry a `role:"tool"` message
carrying the originating call id, the tool name, and a result string;
and `run_agent` finishes by handing the second provider call the base
messages, the assistant tool-call record, and all those tool results,
with the stores threaded through every dispatch. -/
theorem run_agent_dispatches_all_tool_calls (key : Option (List Char))
    (parse : List Char → Option PyVal) (pe fe : Option (List Char))
    (ts sys : List Char) (hist : History) (txt : List Char)
    (st : LogState) (o1 o2 : Oracle) (c : Option (List Char))
    (tcs : List ToolCall)
    (hready : _provider_ready key = true)
    (h1 : o1 (buildBase sys hist txt) = .ok ⟨c, tcs⟩)
    (hne : tcs ≠ []) :
    ((dispatchRound parse pe fe ts tcs st).1.length = tcs.length ∧
      ∃ rs : List (List Char), rs.length = tcs.length ∧
        (dispatchRound parse pe fe ts tcs st).1 =
          List.zipWith (fun tc r => PyMsg.tool tc.id tc.nm r) tcs rs) ∧
    run_agent key parse pe fe ts sys hist txt st o1 o2 =
      finishSecond o2
        (buildBase sys hist txt ++ [.assistantToolCalls tcs] ++
          (dispatchRound parse pe fe ts tcs st).1)
        (dispatchRound parse pe fe ts tcs st).2 := by
  obtain ⟨rs, hlen, hsh⟩ := dispatchRound_shape parse pe fe ts tcs st
  have hni : tcs.isEmpty = false := by
    cases tcs with
    | nil => exact absurd rfl hne
    | cons a as => rfl
  refine ⟨⟨?_, rs, hlen, hsh⟩, ?_⟩
  · rw [hsh, List.length_zipWith, hlen, Nat.min_self]
  · simp [run_agent, hready, h1, hni]

/-- Witness for C1: a concrete turn whose first round requests one
feedback call. -/
theorem run_agent_dispatches_all_tool_calls_witness :
    (((dispatchRound cexParse none none (S "t0") [wCall] st0).1.length =
        [wCall].length ∧
      ∃ rs : List (List Char), rs.length = [wCall].length ∧
        (dispatchRound cexParse none none (S "t0") [wCall] st0).1 =
          List.zipWith (fun tc r => PyMsg.tool tc.id tc.nm r) [wCall] rs) ∧
    run_agent wKey cexParse none none (S "t0") (S "sys") History.absent
        (S "hi") st0 wO1 wO2 =
      finishSecond wO2
        (buildBase (S "sys") History.absent (S "hi") ++
          [.assistantToolCalls [wCall]] ++
          (dispatchRound cexParse none none (S "t0") [wCall] st0).1)
        (dispatchRound cexParse none none (S "t0") [wCall] st0).2) :=
  run_agent_dispatches_all_tool_calls wKey cexParse none none (S "t0")
    (S "sys") History.absent (S "hi") st0 wO1 wO2 none [wCall]
    (by decide) rfl (by simp)

end CedarCare
